import Mathlib

/-!
Verification development for the spinlock and lock-statistics subsystem
(spinlock.c).  The C code is shallowly embedded: each C function of the
LOCKSTAT subsystem becomes a pure Lean function on an explicit state, and
the concurrent acquire/release protocol becomes a labelled transition
system whose atomic steps are the atomic exchanges of the source.

Modelling conventions:
- Heap-allocated `struct klockstat` records are kept in an association
  list `Heap` indexed by allocation ids; a `struct spinlock` field
  `stat` (a pointer) becomes an `Option Nat` holding the id, so pointer
  aliasing between a lock and the registry is represented faithfully.
- The intrusive registry list `lockstat_list` becomes the list of ids
  `lst` (head of the C list first, matching LIST_INSERT_HEAD and
  LIST_FOREACH order).
- u32 / u64 quantities (offsets, byte counts, counters) are modelled on
  `Nat`: every quantity involved is bounded by the size of the registry
  in memory, far below 2^32, so wrap-around cannot occur; the `int`
  return values of the device handlers are `Int` because -1 signals an
  error.
- `panic` is modelled by returning `none` from an `Option` result.
- The record size `sizeof(struct lockstat)` and the platform constants
  NCPU and the name buffer size are compile-time constants of the C
  build that are not fixed by the source file; the functions below take
  them as explicit parameters and the theorems hold for all values.
-/

/-- Serialized statistics payload (struct lockstat): the copied display
name of the lock and one acquisition counter per CPU. -/
structure LockStat where
  name : String
  cpu : List Nat
deriving DecidableEq, Repr

/-- Heap-allocated statistics record (struct klockstat): the active flag
and the payload.  The intrusive list link is modelled by membership of
the id of the record in the registry list. -/
structure Klockstat where
  active : Nat
  s : LockStat
deriving DecidableEq, Repr

/-- The heap of allocated klockstat records, as an association list from
allocation id to record. -/
abbrev Heap := List (Nat × Klockstat)

/-- Look up the record with a given id (pointer dereference). -/
def hlookup : Heap → Nat → Option Klockstat
  | [], _ => none
  | (j, r) :: rest, i => if j = i then some r else hlookup rest i

/-- Mutate the record with a given id in place. -/
def hupdate (h : Heap) (i : Nat) (f : Klockstat → Klockstat) : Heap :=
  h.map (fun p => if p.1 = i then (p.1, f p.2) else p)

/-- Free the record with a given id (kmfree). -/
def hremove (h : Heap) (i : Nat) : Heap :=
  h.filter (fun p => p.1 ≠ i)

/-- State of the LOCKSTAT subsystem: the global enable flag
`lockstat_enable`, the heap of records, the registry list
`lockstat_list` as ids in list order, and the next fresh allocation
id. -/
structure StatState where
  enable : Bool
  heap : Heap
  lst : List Nat
  nextId : Nat
deriving DecidableEq, Repr

/-- A spinlock as far as the statistics subsystem sees it: the lock
word, the display name, and the stat pointer (id of the attached
record, if any). -/
structure Lock where
  locked : Nat
  name : String
  stat : Option Nat
deriving DecidableEq, Repr

/-- Modelled from the spec: safestrcpy is the bounded string copy used
for the display name (its definition is outside this source file); it
copies at most bound - 1 characters and NUL-terminates. -/
def safestrcpy (src : String) (bound : Nat) : String :=
  src.take (bound - 1)

/-- Zero the per-CPU counter array of a record
(memset(&stat->s.cpu, 0, sizeof(stat->s.cpu))). -/
def zeroCounters (r : Klockstat) : Klockstat :=
  { r with s := { r.s with cpu := r.s.cpu.map (fun _ => 0) } }

/-- Increment entry c of a counter array
(lk->stat->s.cpu[cpunum()].acquires++). -/
def incAt (xs : List Nat) (c : Nat) : List Nat :=
  xs.set c (xs.getD c 0 + 1)

/-- The locked() acquisition hook of the source: when the global enable
flag is set and the lock has an attached record, increment the counter
of the current CPU c in that record; otherwise do nothing.  (The
SPINLOCK_DEBUG and mtrace parts of locked() touch no statistics
state.) -/
def locked (c : Nat) (lk : Lock) (st : StatState) : StatState :=
  if st.enable then
    match lk.stat with
    | some i =>
        { st with heap := (hupdate st.heap i
            (fun r => { r with s := { r.s with cpu := incAt r.s.cpu c } })) }
    | none => st
  else st

/-- lockstat_init: panic (none) if the lock already has a record;
if kmalloc fails (allocOk = false) return leaving everything unchanged;
otherwise allocate a zeroed record, set active := 1, copy the display
name of the lock (bounded by namemax, the size of the name buffer, with
ncpu counters), attach it to the lock and insert it at the head of the
registry list. -/
def lockstat_init (ncpu namemax : Nat) (allocOk : Bool) (lk : Lock)
    (st : StatState) : Option (Lock × StatState) :=
  match lk.stat with
  | some _ => none
  | none =>
      if allocOk then
        let i := st.nextId
        let r : Klockstat :=
          { active := 1,
            s := { name := safestrcpy lk.name namemax,
                   cpu := List.replicate ncpu 0 } }
        some ({ lk with stat := some i },
              { st with heap := (i, r) :: st.heap,
                        lst := i :: st.lst,
                        nextId := i + 1 })
      else
        some (lk, st)

/-- lockstat_stop: if a record is attached, mark it inactive through the
pointer and detach the lock reference; otherwise do nothing. -/
def lockstat_stop (lk : Lock) (st : StatState) : Lock × StatState :=
  match lk.stat with
  | some i =>
      ({ lk with stat := none },
       { st with heap := hupdate st.heap i (fun r => { r with active := 0 }) })
  | none => (lk, st)

/-- Body of the LIST_FOREACH_SAFE sweep of lockstat_clear: walk the
registry list head first; an inactive record is unlinked and freed, an
active one gets its counters zeroed and stays linked.  The heap is
threaded through because removal happens during the walk.  (The none
branch is unreachable for well-formed states, where every listed id is
allocated; it keeps the entry untouched.) -/
def lockstat_clearAux : List Nat → Heap → List Nat × Heap
  | [], h => ([], h)
  | i :: rest, h =>
      match hlookup h i with
      | some r =>
          if r.active = 0 then
            lockstat_clearAux rest (hremove h i)
          else
            let p := lockstat_clearAux rest (hupdate h i zeroCounters)
            (i :: p.1, p.2)
      | none =>
          let p := lockstat_clearAux rest h
          (i :: p.1, p.2)

/-- lockstat_clear: sweep the registry under the registry lock. -/
def lockstat_clear (st : StatState) : StatState :=
  let p := lockstat_clearAux st.lst st.heap
  { st with lst := p.1, heap := p.2 }

/-- Modelled from the spec: the command code LOCKSTAT_START (0); the
header defining the LOCKSTAT_START/STOP/CLEAR constants is not part of
this source file, and the spec fixes the codes 0 = start, 1 = stop,
2 = clear. -/
def LOCKSTAT_START : Int := 0

/-- Modelled from the spec: the command code LOCKSTAT_STOP (1). -/
def LOCKSTAT_STOP : Int := 1

/-- Modelled from the spec: the command code LOCKSTAT_CLEAR (2). -/
def LOCKSTAT_CLEAR : Int := 2

/-- lockstat_write: b0 is buf[0], the first byte of the write, as the
(possibly signed) C char value; the command is b0 - 48, that is
buf[0] minus the character code of digit zero, exactly as in the
source.  Valid commands flip the enable flag or run the clear sweep and
echo the byte count n; anything else returns -1 and changes nothing. -/
def lockstat_write (b0 : Int) (n : Nat) (st : StatState) : Int × StatState :=
  let cmd := b0 - 48
  if cmd = LOCKSTAT_START then ((n : Int), { st with enable := true })
  else if cmd = LOCKSTAT_STOP then ((n : Int), { st with enable := false })
  else if cmd = LOCKSTAT_CLEAR then ((n : Int), lockstat_clear st)
  else (-1, st)

/-- Loop of lockstat_read over the registry records in list order: cur
counts bytes of records visited so far, n is the remaining room in the
destination buffer; a record is copied (appended to the output) once
cur has reached off, and the walk stops when less than one record of
room remains.  Returns the final cur and the copied records. -/
def lockstat_readAux (sz : Nat) :
    List LockStat → Nat → Nat → Nat → Nat × List LockStat
  | [], _, _, cur => (cur, [])
  | ls :: rest, off, n, cur =>
      if n < sz then (cur, [])
      else if off ≤ cur then
        let p := lockstat_readAux sz rest off (n - sz) (cur + sz)
        (p.1, ls :: p.2)
      else
        lockstat_readAux sz rest off n (cur + sz)

/-- lockstat_read: sz is sizeof(struct lockstat) and regs the registry
payloads in list order.  Rejects an unaligned offset or a buffer
smaller than one record with -1 and no output; otherwise runs the copy
loop and returns cur - off when the walk reached the offset and 0
otherwise, together with the records copied to the destination. -/
def lockstat_read (sz : Nat) (regs : List LockStat) (off n : Nat) :
    Int × List LockStat :=
  if off % sz ≠ 0 ∨ n < sz then (-1, [])
  else
    let p := lockstat_readAux sz regs off n 0
    (if off ≤ p.1 then ((p.1 : Int) - (off : Int)) else 0, p.2)

/-- Well-formedness of a statistics state: the registry list has no
duplicate ids and every listed id is allocated.  This is the heap
discipline the C code maintains (each list entry is a live klockstat). -/
def wfStat (st : StatState) : Prop :=
  st.lst.Nodup ∧ ∀ i ∈ st.lst, (hlookup st.heap i).isSome = true

instance (st : StatState) : Decidable (wfStat st) := by
  unfold wfStat; infer_instance

/-- Per-CPU interrupt nesting state.  Modelled from the spec: the
pushcli/popcli pair is outside this source file; per §4.2, ncli is the
nesting depth, intena the interrupt-enabled flag saved when the depth
first left 0, and ifenabled the current interrupt-enable flag of the
CPU. -/
structure CpuIntr where
  ncli : Nat
  intena : Bool
  ifenabled : Bool
deriving DecidableEq, Repr

/-- Modelled from the spec: pushMask captures the current
interrupt-enabled flag when the depth is 0, masks interrupts, and
increments the depth. -/
def pushcli (c : CpuIntr) : CpuIntr :=
  let c := if c.ncli = 0 then { c with intena := c.ifenabled } else c
  { c with ifenabled := false, ncli := c.ncli + 1 }

/-- Modelled from the spec: popMask decrements the depth and, when it
returns to 0, restores the saved interrupt-enabled flag. -/
def popcli (c : CpuIntr) : CpuIntr :=
  let c := { c with ncli := c.ncli - 1 }
  if c.ncli = 0 then { c with ifenabled := c.intena } else c

/-- The state tryacquire acts on: the lock word of its lock, the
interrupt state of the calling CPU, and a count of atomic exchange
instructions executed so far (to express that exactly one is
performed). -/
structure TryState where
  lockword : Nat
  cpu : CpuIntr
  xchgs : Nat
deriving DecidableEq, Repr

/-- The atomic exchange primitive xchg32 as tryacquire uses it on the
lock word: writes v, returns the prior value, and counts one exchange. -/
def xchg32 (v : Nat) (s : TryState) : Nat × TryState :=
  (s.lockword, { s with lockword := v, xchgs := s.xchgs + 1 })

/-- tryacquire: pushcli, one atomic exchange writing 1; on prior value
0 the lock is now held and 1 is returned; otherwise popcli undoes the
pushcli and 0 is returned.  The locking/locked hooks (mtrace, debug,
statistics) touch neither the lock word nor the interrupt state and are
omitted here. -/
def tryacquire (s : TryState) : Nat × TryState :=
  let s1 := { s with cpu := pushcli s.cpu }
  let p := xchg32 1 s1
  if p.1 ≠ 0 then
    (0, { p.2 with cpu := popcli p.2.cpu })
  else
    (1, p.2)

/-- Phase of one CPU with respect to one lock in the concurrency model:
idle (not in acquire/release), spinning (inside acquire, before the
winning exchange), critical (between completion of acquire and start of
release). -/
inductive Phase where
  | idle
  | spinning
  | critical
deriving DecidableEq, Repr

/-- Pointwise update of the phase map at CPU i. -/
def setPhase (f : Nat → Phase) (i : Nat) (p : Phase) : Nat → Phase :=
  fun j => if j = i then p else f j

/-- Global state of one lock under concurrent acquire/release: the lock
word (Bool, since the source only ever exchanges 0 or 1 into it) and
the phase of every CPU.  CPUs are indexed by Nat. -/
structure MState where
  word : Bool
  phase : Nat → Phase

/-- Interleaving semantics of acquire/release: each step is one atomic
event of the source.  enter is the call of acquire; win is the atomic
xchg32(&lk->locked, 1) of the spin loop reading prior value 0, which
completes acquire; lose is the same exchange reading prior value 1,
which leaves the loop spinning (the word stays 1); rel is the
xchg32(&lk->locked, 0) of release by a CPU in its critical section. -/
inductive LockStep : MState → MState → Prop where
  | enter (s : MState) (i : Nat) :
      s.phase i = Phase.idle →
      LockStep s { s with phase := setPhase s.phase i Phase.spinning }
  | win (s : MState) (i : Nat) :
      s.phase i = Phase.spinning → s.word = false →
      LockStep s { word := true, phase := setPhase s.phase i Phase.critical }
  | lose (s : MState) (i : Nat) :
      s.phase i = Phase.spinning → s.word = true →
      LockStep s { s with word := true }
  | rel (s : MState) (i : Nat) :
      s.phase i = Phase.critical →
      LockStep s { word := false, phase := setPhase s.phase i Phase.idle }

/-- Initial state: lock word 0 (initlock), every CPU idle. -/
def initMState : MState :=
  { word := false, phase := fun _ => Phase.idle }

/-- States reachable from the initial state by interleaved steps. -/
inductive LockReach : MState → Prop where
  | init : LockReach initMState
  | step {s t : MState} : LockReach s → LockStep s t → LockReach t

/-- The inductive invariant of the protocol: a critical CPU implies the
word is held, and at most one CPU is critical. -/
def MutexInv (s : MState) : Prop :=
  (∀ i, s.phase i = Phase.critical → s.word = true) ∧
  (∀ i j, s.phase i = Phase.critical → s.phase j = Phase.critical → i = j)

theorem mutexInv_init : MutexInv initMState := by
  constructor
  · intro i hi; simp [initMState] at hi
  · intro i j hi _; simp [initMState] at hi

theorem mutexInv_step {s t : MState} (hs : MutexInv s) (h : LockStep s t) :
    MutexInv t := by
  obtain ⟨hword, huniq⟩ := hs
  cases h with
  | enter i hi =>
      constructor
      · intro j hj
        simp only [setPhase] at hj ⊢
        by_cases hji : j = i
        · simp [hji] at hj
        · simp [hji] at hj
          exact hword j hj
      · intro j k hj hk
        simp only [setPhase] at hj hk
        by_cases hji : j = i
        · simp [hji] at hj
        · by_cases hki : k = i
          · simp [hki] at hk
          · simp [hji] at hj
            simp [hki] at hk
            exact huniq j k hj hk
  | win i hi hw =>
      constructor
      · intro j _; rfl
      · intro j k hj hk
        simp only [setPhase] at hj hk
        by_cases hji : j = i
        · by_cases hki : k = i
          · rw [hji, hki]
          · simp [hki] at hk
            exact absurd (hword k hk) (by simp [hw])
        · simp [hji] at hj
          exact absurd (hword j hj) (by simp [hw])
  | lose i hi hw =>
      constructor
      · intro j _; rfl
      · intro j k hj hk
        exact huniq j k hj hk
  | rel i hi =>
      constructor
      · intro j hj
        simp only [setPhase] at hj
        by_cases hji : j = i
        · simp [hji] at hj
        · simp [hji] at hj
          exact absurd (huniq j i hj hi) hji
      · intro j k hj hk
        simp only [setPhase] at hj
        by_cases hji : j = i
        · simp [hji] at hj
        · simp [hji] at hj
          exact absurd (huniq j i hj hi) hji

theorem mutexInv_reach {s : MState} (h : LockReach s) : MutexInv s := by
  induction h with
  | init => exact mutexInv_init
  | step _ hstep ih => exact mutexInv_step ih hstep

/-- C1: for every interleaving of concurrent acquire/release steps on
one lock starting from its initial state, at most one CPU is ever
between the completion of acquire (the winning atomic exchange) and the
start of its matching release: any two CPUs found in the critical phase
of a reachable state are equal. -/
theorem acquire_release_mutual_exclusion (s : MState) (h : LockReach s)
    (i j : Nat) (hi : s.phase i = Phase.critical)
    (hj : s.phase j = Phase.critical) : i = j :=
  (mutexInv_reach h).2 i j hi hj

/-- Witness for C1: a concrete reachable state (CPU 0 called acquire
and won the exchange) in which CPU 0 is critical; the mutual exclusion
theorem applies to it. -/
theorem acquire_release_mutual_exclusion_witness :
    LockReach { word := true,
                phase := setPhase (setPhase (fun _ => Phase.idle) 0
                  Phase.spinning) 0 Phase.critical } ∧ (0 : Nat) = 0 := by
  have h1 : LockStep initMState
      { initMState with
        phase := setPhase initMState.phase 0 Phase.spinning } :=
    LockStep.enter initMState 0 rfl
  have h2 : LockStep
      { initMState with
        phase := setPhase initMState.phase 0 Phase.spinning }
      { word := true,
        phase := setPhase (setPhase (fun _ => Phase.idle) 0
          Phase.spinning) 0 Phase.critical } :=
    LockStep.win _ 0 rfl rfl
  have hr := LockReach.step (LockReach.step LockReach.init h1) h2
  exact ⟨hr, acquire_release_mutual_exclusion _ hr 0 0 rfl rfl⟩

/-- C2: tryacquire performs exactly one atomic exchange (so it never
spins); reading prior value 0 it returns 1 with the lock word now 1 and
interrupts pushed by the caller; reading prior value 1 it returns 0 and
the interrupt nesting depth of the calling CPU equals its value from
before the call, the pushcli being undone by popcli. -/
theorem tryacquire_spec (s : TryState) :
    ((tryacquire s).2.xchgs = s.xchgs + 1) ∧
    (s.lockword = 0 →
      (tryacquire s).1 = 1 ∧ (tryacquire s).2.lockword = 1 ∧
      (tryacquire s).2.cpu.ncli = s.cpu.ncli + 1) ∧
    (s.lockword = 1 →
      (tryacquire s).1 = 0 ∧ (tryacquire s).2.lockword = 1 ∧
      (tryacquire s).2.cpu.ncli = s.cpu.ncli) := by
  obtain ⟨w, c, x⟩ := s
  by_cases hw : w = 0 <;>
    simp [tryacquire, xchg32, pushcli, popcli, hw] <;>
    split_ifs <;> simp_all

/-- Witness for C2 at concrete states: a free lock (word 0) and a held
lock (word 1), each with nesting depth 2. -/
theorem tryacquire_spec_witness :
    ((tryacquire ⟨0, ⟨2, true, false⟩, 0⟩).1 = 1 ∧
     (tryacquire ⟨0, ⟨2, true, false⟩, 0⟩).2.cpu.ncli = 3) ∧
    ((tryacquire ⟨1, ⟨2, true, false⟩, 0⟩).1 = 0 ∧
     (tryacquire ⟨1, ⟨2, true, false⟩, 0⟩).2.cpu.ncli = 2 ∧
     (tryacquire ⟨1, ⟨2, true, false⟩, 0⟩).2.xchgs = 1) := by
  refine ⟨⟨?_, ?_⟩, ?_, ?_, ?_⟩
  · exact ((tryacquire_spec ⟨0, ⟨2, true, false⟩, 0⟩).2.1 rfl).1
  · exact ((tryacquire_spec ⟨0, ⟨2, true, false⟩, 0⟩).2.1 rfl).2.2
  · exact ((tryacquire_spec ⟨1, ⟨2, true, false⟩, 0⟩).2.2 rfl).1
  · exact ((tryacquire_spec ⟨1, ⟨2, true, false⟩, 0⟩).2.2 rfl).2.2
  · exact (tryacquire_spec ⟨1, ⟨2, true, false⟩, 0⟩).1

/-- C3: a write to the lockstat device decodes its first byte into a
command (buf[0] - 48); command code 0 enables global collection,
command code 1 disables it leaving the heap and registry list (records
and counters) untouched, command code 2 runs the registry clear sweep;
any other first byte yields -1 and changes nothing; the three valid
commands echo back the full byte count n. -/
theorem lockstat_write_spec (b0 : Int) (n : Nat) (st : StatState) :
    (b0 - 48 = LOCKSTAT_START →
      lockstat_write b0 n st = ((n : Int), { st with enable := true })) ∧
    (b0 - 48 = LOCKSTAT_STOP →
      lockstat_write b0 n st = ((n : Int), { st with enable := false })) ∧
    (b0 - 48 = LOCKSTAT_CLEAR →
      lockstat_write b0 n st = ((n : Int), lockstat_clear st)) ∧
    (b0 - 48 ≠ LOCKSTAT_START → b0 - 48 ≠ LOCKSTAT_STOP →
      b0 - 48 ≠ LOCKSTAT_CLEAR →
      lockstat_write b0 n st = (-1, st)) := by
  refine ⟨?_, ?_, ?_, ?_⟩
  · intro h
    simp [lockstat_write, h]
  · intro h
    simp [lockstat_write, h, LOCKSTAT_START, LOCKSTAT_STOP]
  · intro h
    simp [lockstat_write, h, LOCKSTAT_START, LOCKSTAT_STOP, LOCKSTAT_CLEAR]
  · intro h0 h1 h2
    simp [lockstat_write, if_neg h0, if_neg h1, if_neg h2]

/-- Witness for C3: the four cases of the write handler at the concrete
bytes 48 (digit zero), 49, 50 and 7, byte count 5, on a concrete
state. -/
theorem lockstat_write_spec_witness :
    (lockstat_write 48 5 ⟨false, [], [], 0⟩ = (5, ⟨true, [], [], 0⟩)) ∧
    (lockstat_write 49 5 ⟨true, [], [], 0⟩ = (5, ⟨false, [], [], 0⟩)) ∧
    (lockstat_write 50 5 ⟨true, [], [], 0⟩ =
      (5, lockstat_clear ⟨true, [], [], 0⟩)) ∧
    (lockstat_write 7 5 ⟨true, [], [], 0⟩ = (-1, ⟨true, [], [], 0⟩)) :=
  ⟨(lockstat_write_spec 48 5 ⟨false, [], [], 0⟩).1 (by decide),
   (lockstat_write_spec 49 5 ⟨true, [], [], 0⟩).2.1 (by decide),
   (lockstat_write_spec 50 5 ⟨true, [], [], 0⟩).2.2.1 (by decide),
   (lockstat_write_spec 7 5 ⟨true, [], [], 0⟩).2.2.2
     (by decide) (by decide) (by decide)⟩

/-- C4: a read of the lockstat device whose offset is not a multiple of
the record size, or whose length is smaller than one record, returns -1
and copies nothing into the destination. -/
theorem lockstat_read_reject (sz : Nat) (regs : List LockStat)
    (off n : Nat) (h : off % sz ≠ 0 ∨ n < sz) :
    lockstat_read sz regs off n = (-1, []) := by
  simp [lockstat_read, h]

/-- Witness for C4: an unaligned offset (3 with record size 2) and a
short length (1 with record size 2) are both rejected on a one-record
registry. -/
theorem lockstat_read_reject_witness :
    lockstat_read 2 [⟨"a", [7]⟩] 3 10 = (-1, []) ∧
    lockstat_read 2 [⟨"a", [7]⟩] 0 1 = (-1, []) :=
  ⟨lockstat_read_reject 2 [⟨"a", [7]⟩] 3 10 (by decide),
   lockstat_read_reject 2 [⟨"a", [7]⟩] 0 1 (by decide)⟩

/-- C7: starting statistics tracking panics if the lock already has an
attached record; if allocation fails the lock keeps a null stats link
and the state is unchanged; on success the lock points at a fresh
record that is active, carries the bounded copy of the display name of
the lock and all-zero counters, and sits at the head of the registry
list. -/
theorem lockstat_init_spec (ncpu namemax : Nat) (allocOk : Bool)
    (lk : Lock) (st : StatState) :
    (∀ i, lk.stat = some i →
      lockstat_init ncpu namemax allocOk lk st = none) ∧
    (lk.stat = none → allocOk = false →
      lockstat_init ncpu namemax allocOk lk st = some (lk, st)) ∧
    (lk.stat = none → allocOk = true →
      lockstat_init ncpu namemax allocOk lk st =
        some ({ lk with stat := some st.nextId },
              { enable := st.enable,
                heap := (st.nextId,
                  { active := 1,
                    s := { name := safestrcpy lk.name namemax,
                           cpu := List.replicate ncpu 0 } }) :: st.heap,
                lst := st.nextId :: st.lst,
                nextId := st.nextId + 1 })) := by
  refine ⟨?_, ?_, ?_⟩
  · intro i h
    simp [lockstat_init, h]
  · intro h ha
    simp [lockstat_init, h, ha]
  · intro h ha
    simp [lockstat_init, h, ha]

/-- Witness for C7: the three branches at concrete inputs — a lock with
an attached record panics, an allocation failure leaves everything
unchanged, and a successful start builds the expected record. -/
theorem lockstat_init_spec_witness :
    (lockstat_init 2 16 true ⟨0, "disk", some 3⟩ ⟨true, [], [3], 4⟩
       = none) ∧
    (lockstat_init 2 16 false ⟨0, "disk", none⟩ ⟨true, [], [], 0⟩
       = some (⟨0, "disk", none⟩, ⟨true, [], [], 0⟩)) ∧
    (lockstat_init 2 16 true ⟨0, "disk", none⟩ ⟨true, [], [], 0⟩
       = some (⟨0, "disk", some 0⟩,
               ⟨true, [(0, ⟨1, ⟨safestrcpy ("disk") 16, [0, 0]⟩⟩)], [0], 1⟩)) :=
  ⟨(lockstat_init_spec 2 16 true ⟨0, "disk", some 3⟩ ⟨true, [], [3], 4⟩).1
     3 rfl,
   (lockstat_init_spec 2 16 false ⟨0, "disk", none⟩ ⟨true, [], [], 0⟩).2.1
     rfl rfl,
   (lockstat_init_spec 2 16 true ⟨0, "disk", none⟩ ⟨true, [], [], 0⟩).2.2
     rfl rfl⟩

/-- C9: stopping statistics tracking is idempotent — running
lockstat_stop on the result of lockstat_stop changes nothing further,
and running it on a lock with no attached record changes nothing at
all. -/
theorem lockstat_stop_idem (lk : Lock) (st : StatState) :
    (lockstat_stop (lockstat_stop lk st).1 (lockstat_stop lk st).2 =
      lockstat_stop lk st) ∧
    (lk.stat = none → lockstat_stop lk st = (lk, st)) := by
  obtain ⟨lw, lname, lstat⟩ := lk
  cases lstat <;> simp [lockstat_stop]

/-- Witness for C9: a lock with an attached active record is stopped
twice with the same result as once, and a detached lock is untouched. -/
theorem lockstat_stop_idem_witness :
    (lockstat_stop
       (lockstat_stop ⟨1, "disk", some 0⟩
          ⟨true, [(0, ⟨1, ⟨"disk", [5]⟩⟩)], [0], 1⟩).1
       (lockstat_stop ⟨1, "disk", some 0⟩
          ⟨true, [(0, ⟨1, ⟨"disk", [5]⟩⟩)], [0], 1⟩).2 =
      lockstat_stop ⟨1, "disk", some 0⟩
        ⟨true, [(0, ⟨1, ⟨"disk", [5]⟩⟩)], [0], 1⟩) ∧
    (lockstat_stop ⟨1, "disk", none⟩ ⟨true, [], [], 0⟩ =
      (⟨1, "disk", none⟩, ⟨true, [], [], 0⟩)) :=
  ⟨(lockstat_stop_idem ⟨1, "disk", some 0⟩
      ⟨true, [(0, ⟨1, ⟨"disk", [5]⟩⟩)], [0], 1⟩).1,
   (lockstat_stop_idem ⟨1, "disk", none⟩ ⟨true, [], [], 0⟩).2 rfl⟩

theorem hlookup_hupdate_self (h : Heap) (i : Nat) (f : Klockstat → Klockstat) :
    hlookup (hupdate h i f) i = (hlookup h i).map f := by
  induction h with
  | nil => rfl
  | cons p rest ih =>
      obtain ⟨j, r⟩ := p
      by_cases hj : j = i
      · show hlookup ((if j = i then (j, f r) else (j, r)) :: hupdate rest i f) i = _
        rw [if_pos hj]
        show (if j = i then some (f r) else hlookup (hupdate rest i f) i) = _
        rw [if_pos hj]
        show _ = Option.map f (if j = i then some r else hlookup rest i)
        rw [if_pos hj]
        rfl
      · show hlookup ((if j = i then (j, f r) else (j, r)) :: hupdate rest i f) i = _
        rw [if_neg hj]
        show (if j = i then some r else hlookup (hupdate rest i f) i) = _
        rw [if_neg hj, ih]
        show _ = Option.map f (if j = i then some r else hlookup rest i)
        rw [if_neg hj]

theorem hlookup_hupdate_ne (h : Heap) (i j : Nat)
    (f : Klockstat → Klockstat) (hne : j ≠ i) :
    hlookup (hupdate h i f) j = hlookup h j := by
  induction h with
  | nil => rfl
  | cons p rest ih =>
      obtain ⟨k, r⟩ := p
      by_cases hk : k = i
      · have hkj : k ≠ j := by
          rw [hk]; exact fun e => hne e.symm
        show hlookup ((if k = i then (k, f r) else (k, r)) :: hupdate rest i f) j = _
        rw [if_pos hk]
        show (if k = j then some (f r) else hlookup (hupdate rest i f) j) = _
        rw [if_neg hkj, ih]
        show _ = (if k = j then some r else hlookup rest j)
        rw [if_neg hkj]
      · show hlookup ((if k = i then (k, f r) else (k, r)) :: hupdate rest i f) j = _
        rw [if_neg hk]
        show (if k = j then some r else hlookup (hupdate rest i f) j) = _
        show _ = (if k = j then some r else hlookup rest j)
        by_cases hkj : k = j
        · rw [if_pos hkj, if_pos hkj]
        · rw [if_neg hkj, if_neg hkj, ih]

theorem hlookup_hremove_self (h : Heap) (i : Nat) :
    hlookup (hremove h i) i = none := by
  induction h with
  | nil => rfl
  | cons p rest ih =>
      obtain ⟨k, r⟩ := p
      by_cases hk : k = i
      · subst hk
        simp only [hremove, ne_eq, decide_not] at ih
        simp [hremove, List.filter_cons, ih]
      · simp only [hremove, ne_eq, decide_not] at ih
        simp [hremove, List.filter_cons, hk, hlookup, ih]

theorem hlookup_hremove_ne (h : Heap) (i j : Nat) (hne : j ≠ i) :
    hlookup (hremove h i) j = hlookup h j := by
  induction h with
  | nil => rfl
  | cons p rest ih =>
      obtain ⟨k, r⟩ := p
      by_cases hk : k = i
      · subst hk
        have hkj : k ≠ j := fun e => hne e.symm
        simp only [hremove, ne_eq, decide_not] at ih
        simp [hremove, List.filter_cons, hlookup, hkj, ih]
      · simp only [hremove, ne_eq, decide_not] at ih
        simp [hremove, List.filter_cons, hk, hlookup, ih]

theorem clearAux_subset :
    ∀ (lst : List Nat) (h : Heap), (lockstat_clearAux lst h).1 ⊆ lst := by
  intro lst
  induction lst with
  | nil => intro h; simp [lockstat_clearAux]
  | cons i rest ih =>
      intro h
      simp only [lockstat_clearAux]
      cases hl : hlookup h i with
      | some r =>
          dsimp only
          by_cases ha : r.active = 0
          · rw [if_pos ha]
            exact (ih (hremove h i)).trans (List.subset_cons_self i rest)
          · rw [if_neg ha]
            exact List.cons_subset_cons i (ih (hupdate h i zeroCounters))
      | none =>
          exact List.cons_subset_cons i (ih h)

theorem clearAux_frame :
    ∀ (lst : List Nat) (h : Heap) (j : Nat), j ∉ lst →
      hlookup (lockstat_clearAux lst h).2 j = hlookup h j := by
  intro lst
  induction lst with
  | nil => intro h j _; rfl
  | cons i rest ih =>
      intro h j hj
      have hji : j ≠ i := fun e => hj (e ▸ List.mem_cons_self i rest)
      have hjr : j ∉ rest := fun e => hj (List.mem_cons_of_mem i e)
      simp only [lockstat_clearAux]
      cases hl : hlookup h i with
      | some r =>
          dsimp only
          by_cases ha : r.active = 0
          · rw [if_pos ha]
            rw [ih (hremove h i) j hjr, hlookup_hremove_ne h i j hji]
          · rw [if_neg ha]
            rw [ih (hupdate h i zeroCounters) j hjr,
                hlookup_hupdate_ne h i j zeroCounters hji]
      | none =>
          exact ih h j hjr

theorem clearAux_mem :
    ∀ (lst : List Nat) (h : Heap), lst.Nodup →
      (∀ k ∈ lst, (hlookup h k).isSome = true) →
      ∀ i ∈ lst, ∀ r, hlookup h i = some r →
        (r.active = 0 → i ∉ (lockstat_clearAux lst h).1 ∧
          hlookup (lockstat_clearAux lst h).2 i = none) ∧
        (r.active ≠ 0 → i ∈ (lockstat_clearAux lst h).1 ∧
          hlookup (lockstat_clearAux lst h).2 i = some (zeroCounters r)) := by
  intro lst
  induction lst with
  | nil =>
      intro h _ _ i hi
      exact absurd hi (List.not_mem_nil i)
  | cons hd rest ih =>
      intro h hnd hwf i hi r hr
      have hhd : hd ∉ rest := (List.nodup_cons.1 hnd).1
      have hndr : rest.Nodup := (List.nodup_cons.1 hnd).2
      rcases List.mem_cons.1 hi with hihd | hirest
      · subst hihd
        simp only [lockstat_clearAux, hr]
        constructor
        · intro ha0
          rw [if_pos ha0]
          refine ⟨fun hmem => hhd (clearAux_subset rest (hremove h i) hmem), ?_⟩
          rw [clearAux_frame rest (hremove h i) i hhd, hlookup_hremove_self]
        · intro hane
          rw [if_neg hane]
          refine ⟨List.mem_cons_self i _, ?_⟩
          show hlookup (lockstat_clearAux rest (hupdate h i zeroCounters)).2 i = _
          rw [clearAux_frame rest (hupdate h i zeroCounters) i hhd,
              hlookup_hupdate_self, hr]
          rfl
      · have hine : i ≠ hd := fun e => hhd (e ▸ hirest)
        have hhds : (hlookup h hd).isSome = true :=
          hwf hd (List.mem_cons_self hd rest)
        obtain ⟨rh, hrh⟩ := Option.isSome_iff_exists.1 hhds
        simp only [lockstat_clearAux, hrh]
        by_cases ha : rh.active = 0
        · rw [if_pos ha]
          refine ih (hremove h hd) hndr ?_ i hirest r ?_
          · intro k hk
            have hkhd : k ≠ hd := fun e => hhd (e ▸ hk)
            rw [hlookup_hremove_ne h hd k hkhd]
            exact hwf k (List.mem_cons_of_mem hd hk)
          · rw [hlookup_hremove_ne h hd i hine]
            exact hr
        · rw [if_neg ha]
          have hwr : ∀ k ∈ rest,
              (hlookup (hupdate h hd zeroCounters) k).isSome = true := by
            intro k hk
            have hkhd : k ≠ hd := fun e => hhd (e ▸ hk)
            rw [hlookup_hupdate_ne h hd k zeroCounters hkhd]
            exact hwf k (List.mem_cons_of_mem hd hk)
          have hri : hlookup (hupdate h hd zeroCounters) i = some r := by
            rw [hlookup_hupdate_ne h hd i zeroCounters hine]
            exact hr
          have t := ih (hupdate h hd zeroCounters) hndr hwr i hirest r hri
          constructor
          · intro h0
            obtain ⟨t1, t2⟩ := t.1 h0
            refine ⟨fun hm => ?_, t2⟩
            rcases List.mem_cons.1 hm with e | e
            · exact hine e
            · exact t1 e
          · intro h0
            obtain ⟨t1, t2⟩ := t.2 h0
            exact ⟨List.mem_cons_of_mem hd t1, t2⟩

/-- C6: the clear operation removes from the registry and frees exactly
the records whose active flag is 0 (they leave both the list and the
heap), and every record with a nonzero active flag stays registered
with its name and active flag intact and every per-CPU counter reset to
zero; no id from outside the registry appears afterwards. -/
theorem lockstat_clear_spec (st : StatState) (hwf : wfStat st) :
    ((lockstat_clear st).lst ⊆ st.lst) ∧
    ∀ i ∈ st.lst, ∀ r, hlookup st.heap i = some r →
      (r.active = 0 → i ∉ (lockstat_clear st).lst ∧
        hlookup (lockstat_clear st).heap i = none) ∧
      (r.active ≠ 0 → i ∈ (lockstat_clear st).lst ∧
        hlookup (lockstat_clear st).heap i =
          some { active := r.active,
                 s := { name := r.s.name,
                        cpu := r.s.cpu.map (fun _ => 0) } }) := by
  constructor
  · exact clearAux_subset st.lst st.heap
  · intro i hi r hr
    have t := clearAux_mem st.lst st.heap hwf.1 hwf.2 i hi r hr
    exact t

/-- Witness for C6 on a concrete registry with one active and one
inactive record: the inactive one is freed, the active one survives
with zeroed counters, intact name and active flag. -/
theorem lockstat_clear_spec_witness :
    (lockstat_clear ⟨true, [(0, ⟨1, ⟨"disk", [3, 4]⟩⟩),
                            (1, ⟨0, ⟨"pipe", [5]⟩⟩)], [0, 1], 2⟩).lst
        ⊆ [0, 1] ∧
    ((0 : Nat) ∈
        (lockstat_clear ⟨true, [(0, ⟨1, ⟨"disk", [3, 4]⟩⟩),
                                (1, ⟨0, ⟨"pipe", [5]⟩⟩)], [0, 1], 2⟩).lst ∧
      hlookup (lockstat_clear ⟨true, [(0, ⟨1, ⟨"disk", [3, 4]⟩⟩),
                                      (1, ⟨0, ⟨"pipe", [5]⟩⟩)],
                               [0, 1], 2⟩).heap 0 =
        some ⟨1, ⟨"disk", [0, 0]⟩⟩) ∧
    ((1 : Nat) ∉
        (lockstat_clear ⟨true, [(0, ⟨1, ⟨"disk", [3, 4]⟩⟩),
                                (1, ⟨0, ⟨"pipe", [5]⟩⟩)], [0, 1], 2⟩).lst ∧
      hlookup (lockstat_clear ⟨true, [(0, ⟨1, ⟨"disk", [3, 4]⟩⟩),
                                      (1, ⟨0, ⟨"pipe", [5]⟩⟩)],
                               [0, 1], 2⟩).heap 1 = none) := by
  have t := lockstat_clear_spec
    ⟨true, [(0, ⟨1, ⟨"disk", [3, 4]⟩⟩), (1, ⟨0, ⟨"pipe", [5]⟩⟩)], [0, 1], 2⟩
    (by decide)
  refine ⟨t.1, ?_, ?_⟩
  · have h0 := (t.2 0 (by decide) ⟨1, ⟨"disk", [3, 4]⟩⟩ (by decide)).2
      (by decide)
    exact ⟨h0.1, h0.2⟩
  · exact (t.2 1 (by decide) ⟨0, ⟨"pipe", [5]⟩⟩ (by decide)).1 (by decide)

theorem readAux_ge (sz off : Nat) :
    ∀ (regs : List LockStat) (n cur : Nat), off ≤ cur →
      (lockstat_readAux sz regs off n cur).1 =
        cur + sz * (lockstat_readAux sz regs off n cur).2.length := by
  intro regs
  induction regs with
  | nil =>
      intro n cur _
      simp [lockstat_readAux]
  | cons ls rest ih =>
      intro n cur h
      simp only [lockstat_readAux]
      by_cases h1 : n < sz
      · rw [if_pos h1]
        simp
      · rw [if_neg h1, if_pos h]
        dsimp only
        rw [ih (n - sz) (cur + sz) (h.trans (Nat.le_add_right cur sz))]
        rw [List.length_cons, Nat.mul_succ]
        omega

theorem readAux_le (sz off : Nat) :
    ∀ (regs : List LockStat) (n cur : Nat),
      (lockstat_readAux sz regs off n cur).1 ≤ cur + sz * regs.length := by
  intro regs
  induction regs with
  | nil =>
      intro n cur
      simp [lockstat_readAux]
  | cons ls rest ih =>
      intro n cur
      simp only [lockstat_readAux]
      by_cases h1 : n < sz
      · rw [if_pos h1]
        exact Nat.le_add_right cur _
      · rw [if_neg h1]
        by_cases h2 : off ≤ cur
        · rw [if_pos h2]
          dsimp only
          have := ih (n - sz) (cur + sz)
          rw [List.length_cons, Nat.mul_succ]
          omega
        · rw [if_neg h2]
          have := ih n (cur + sz)
          rw [List.length_cons, Nat.mul_succ]
          omega

theorem dvd_lt_add_le {sz a b : Nat} (_hsz : 0 < sz) (ha : sz ∣ a)
    (hb : sz ∣ b) (h : a < b) : a + sz ≤ b := by
  have hd : sz ∣ b - a := Nat.dvd_sub' hb ha
  have hpos : 0 < b - a := Nat.sub_pos_of_lt h
  have := Nat.le_of_dvd hpos hd
  omega

theorem readAux_lt (sz off : Nat) (hsz : 0 < sz) (hoff : sz ∣ off) :
    ∀ (regs : List LockStat) (n cur : Nat), sz ∣ cur → cur < off →
      (off ≤ (lockstat_readAux sz regs off n cur).1 →
        (lockstat_readAux sz regs off n cur).1 =
          off + sz * (lockstat_readAux sz regs off n cur).2.length) ∧
      ((lockstat_readAux sz regs off n cur).1 < off →
        (lockstat_readAux sz regs off n cur).2 = []) := by
  intro regs
  induction regs with
  | nil =>
      intro n cur _ hlt
      exact ⟨fun hle => absurd hle (not_le.2 hlt), fun _ => rfl⟩
  | cons ls rest ih =>
      intro n cur hcur hlt
      simp only [lockstat_readAux]
      by_cases h1 : n < sz
      · rw [if_pos h1]
        exact ⟨fun hle => absurd hle (not_le.2 hlt), fun _ => rfl⟩
      · have hnc : ¬ off ≤ cur := not_le.2 hlt
        rw [if_neg h1, if_neg hnc]
        have hstep : cur + sz ≤ off := dvd_lt_add_le hsz hcur hoff hlt
        rcases lt_or_eq_of_le hstep with hlt2 | heq
        · exact ih n (cur + sz) (Nat.dvd_add hcur dvd_rfl) hlt2
        · have hge := readAux_ge sz off rest n (cur + sz) (le_of_eq heq.symm)
          exact ⟨fun _ => by omega, fun hlt3 => absurd hlt3 (by omega)⟩

theorem readAux_spec (sz off n : Nat) (regs : List LockStat) (hsz : 0 < sz)
    (hoff : sz ∣ off) :
    (off ≤ (lockstat_readAux sz regs off n 0).1 →
      (lockstat_readAux sz regs off n 0).1 =
        off + sz * (lockstat_readAux sz regs off n 0).2.length) ∧
    ((lockstat_readAux sz regs off n 0).1 < off →
      (lockstat_readAux sz regs off n 0).2 = []) := by
  rcases Nat.eq_zero_or_pos off with h0 | hpos
  · subst h0
    refine ⟨fun _ => ?_, fun h => absurd h (Nat.not_lt_zero _)⟩
    have := readAux_ge sz 0 regs n 0 (le_refl 0)
    simpa using this
  · exact readAux_lt sz off hsz hoff regs n 0 (dvd_zero sz) hpos

/-- C5: a read whose offset is record-aligned and whose length holds at
least one record returns exactly the number of bytes it copied (record
size times the number of records copied), and when the offset is at or
beyond the end of the serialized registry it returns 0 and copies
nothing. -/
theorem lockstat_read_ok (sz : Nat) (regs : List LockStat) (off n : Nat)
    (hsz : 0 < sz) (hoff : off % sz = 0) (hn : sz ≤ n) :
    ((lockstat_read sz regs off n).1 =
      ((sz * (lockstat_read sz regs off n).2.length : Nat) : Int)) ∧
    (sz * regs.length ≤ off → lockstat_read sz regs off n = (0, [])) := by
  have hdvd : sz ∣ off := Nat.dvd_of_mod_eq_zero hoff
  have hcond : ¬(off % sz ≠ 0 ∨ n < sz) := by
    push_neg
    exact ⟨hoff, hn⟩
  have hread : lockstat_read sz regs off n =
      (if off ≤ (lockstat_readAux sz regs off n 0).1
        then ((lockstat_readAux sz regs off n 0).1 : Int) - (off : Int)
        else 0,
       (lockstat_readAux sz regs off n 0).2) := by
    unfold lockstat_read
    rw [if_neg hcond]
  rw [hread]
  have hspec := readAux_spec sz off n regs hsz hdvd
  constructor
  · rcases le_or_lt off ((lockstat_readAux sz regs off n 0).1) with hle | hlt
    · rw [if_pos hle, hspec.1 hle]
      push_cast
      ring
    · rw [if_neg (not_le.2 hlt), hspec.2 hlt]
      simp
  · intro hend
    have hbound := readAux_le sz off regs n 0
    rcases le_or_lt off ((lockstat_readAux sz regs off n 0).1) with hle | hlt
    · have h1 := hspec.1 hle
      have hlen0 : sz * (lockstat_readAux sz regs off n 0).2.length = 0 := by
        omega
      have hp1 : (lockstat_readAux sz regs off n 0).1 = off := by
        omega
      have hl0 : (lockstat_readAux sz regs off n 0).2.length = 0 := by
        rcases Nat.mul_eq_zero.1 hlen0 with e | e
        · exact absurd e (Nat.pos_iff_ne_zero.1 hsz)
        · exact e
      have hnil : (lockstat_readAux sz regs off n 0).2 = [] :=
        List.length_eq_zero.1 hl0
      rw [if_pos hle, hp1, hnil]
      simp
    · rw [if_neg (not_le.2 hlt), hspec.2 hlt]

/-- Witness for C5: record size 2 on two records; the aligned read at
offset 2 with room 5 copies one record and returns 2 bytes, and the
aligned read at offset 6, beyond the 4-byte end, returns 0 with no
output. -/
theorem lockstat_read_ok_witness :
    ((lockstat_read 2 [⟨"a", [1]⟩, ⟨"b", [2]⟩] 2 5).1 =
      ((2 * (lockstat_read 2 [⟨"a", [1]⟩, ⟨"b", [2]⟩] 2 5).2.length :
        Nat) : Int)) ∧
    (lockstat_read 2 [⟨"a", [1]⟩, ⟨"b", [2]⟩] 6 5 = (0, [])) :=
  ⟨(lockstat_read_ok 2 [⟨"a", [1]⟩, ⟨"b", [2]⟩] 2 5 (by decide) (by decide)
      (by decide)).1,
   (lockstat_read_ok 2 [⟨"a", [1]⟩, ⟨"b", [2]⟩] 6 5 (by decide) (by decide)
      (by decide)).2 (by decide)⟩

/-- C10: a read that passes the precondition check produces a byte count
equal to the record size times a whole number of records — the records
copied out — even when the requested length is not a multiple of the
record size. -/
theorem lockstat_read_whole_records (sz : Nat) (regs : List LockStat)
    (off n : Nat) (hsz : 0 < sz) (hoff : off % sz = 0) (hn : sz ≤ n) :
    ∃ k : Nat, (lockstat_read sz regs off n).1 = ((sz * k : Nat) : Int) ∧
      (lockstat_read sz regs off n).2.length = k := by
  have hdvd : sz ∣ off := Nat.dvd_of_mod_eq_zero hoff
  have hcond : ¬(off % sz ≠ 0 ∨ n < sz) := by
    push_neg
    exact ⟨hoff, hn⟩
  have hread : lockstat_read sz regs off n =
      (if off ≤ (lockstat_readAux sz regs off n 0).1
        then ((lockstat_readAux sz regs off n 0).1 : Int) - (off : Int)
        else 0,
       (lockstat_readAux sz regs off n 0).2) := by
    unfold lockstat_read
    rw [if_neg hcond]
  rw [hread]
  have hspec := readAux_spec sz off n regs hsz hdvd
  rcases le_or_lt off ((lockstat_readAux sz regs off n 0).1) with hle | hlt
  · refine ⟨(lockstat_readAux sz regs off n 0).2.length, ?_, rfl⟩
    dsimp only
    rw [if_pos hle, hspec.1 hle]
    push_cast
    ring
  · refine ⟨0, ?_, ?_⟩
    · dsimp only
      rw [if_neg (not_le.2 hlt)]
      simp
    · dsimp only
      rw [hspec.2 hlt]
      rfl

/-- Witness for C10: with record size 2, reading 3 bytes from offset 0
of a two-record registry copies exactly one whole record and returns 2
bytes, a multiple of the record size although 3 is not. -/
theorem lockstat_read_whole_records_witness :
    ∃ k : Nat,
      (lockstat_read 2 [⟨"a", [1]⟩, ⟨"b", [2]⟩] 0 3).1 =
        ((2 * k : Nat) : Int) ∧
      (lockstat_read 2 [⟨"a", [1]⟩, ⟨"b", [2]⟩] 0 3).2.length = k :=
  lockstat_read_whole_records 2 [⟨"a", [1]⟩, ⟨"b", [2]⟩] 0 3 (by decide)
    (by decide) (by decide)

theorem getD_set_self (xs : List Nat) (c v : Nat) (h : c < xs.length) :
    (xs.set c v).getD c 0 = v := by
  induction xs generalizing c with
  | nil => simp at h
  | cons a rest ih =>
      cases c with
      | zero => rfl
      | succ m =>
          simp only [List.set, List.getD, List.getElem?_cons_succ]
          have hm : m < rest.length := by
            simpa using h
          exact ih m hm

/-- Per-CPU acquisition counter of record i for CPU c as visible in the
registry heap (0 when the record or the entry is absent). -/
def acquiresOf (st : StatState) (i c : Nat) : Nat :=
  match hlookup st.heap i with
  | some r => r.s.cpu.getD c 0
  | none => 0

/-- C8: a successful acquisition performed while global collection is
disabled, or on a lock with no attached record, changes no statistics
state at all (so no counter of any record moves); re-enabling
collection with the start command leaves the whole heap of records
untouched, and an acquisition after it increments the attached counter
by one from its previously accumulated value rather than from zero. -/
theorem locked_gating (st : StatState) (lk : Lock) (c : Nat) :
    (st.enable = false ∨ lk.stat = none → locked c lk st = st) ∧
    (∀ i r nb, lk.stat = some i → hlookup st.heap i = some r →
      c < r.s.cpu.length →
      (lockstat_write 48 nb st).2.heap = st.heap ∧
      acquiresOf (locked c lk (lockstat_write 48 nb st).2) i c =
        acquiresOf st i c + 1) := by
  constructor
  · intro h
    rcases h with he | hs
    · simp [locked, he]
    · simp [locked, hs]
  · intro i r nb hstat hlook hc
    have hw : (lockstat_write 48 nb st).2 = { st with enable := true } := by
      simp [lockstat_write, LOCKSTAT_START]
    rw [hw]
    refine ⟨rfl, ?_⟩
    simp only [locked, hstat, if_true]
    unfold acquiresOf
    simp only [hlookup_hupdate_self, hlook, Option.map_some]
    exact getD_set_self r.s.cpu c (r.s.cpu.getD c 0 + 1) hc

/-- Witness for C8: a one-record registry with counters [3, 4]; with
collection disabled an acquisition changes nothing, and after the start
command an acquisition on CPU 1 moves the counter from 4 to 5. -/
theorem locked_gating_witness :
    (locked 1 ⟨1, "disk", some 0⟩
       ⟨false, [(0, ⟨1, ⟨"disk", [3, 4]⟩⟩)], [0], 1⟩ =
      ⟨false, [(0, ⟨1, ⟨"disk", [3, 4]⟩⟩)], [0], 1⟩) ∧
    ((lockstat_write 48 1
        ⟨false, [(0, ⟨1, ⟨"disk", [3, 4]⟩⟩)], [0], 1⟩).2.heap =
      [(0, ⟨1, ⟨"disk", [3, 4]⟩⟩)]) ∧
    (acquiresOf
        (locked 1 ⟨1, "disk", some 0⟩
          (lockstat_write 48 1
            ⟨false, [(0, ⟨1, ⟨"disk", [3, 4]⟩⟩)], [0], 1⟩).2) 0 1 =
      acquiresOf ⟨false, [(0, ⟨1, ⟨"disk", [3, 4]⟩⟩)], [0], 1⟩ 0 1 + 1) := by
  have t := locked_gating ⟨false, [(0, ⟨1, ⟨"disk", [3, 4]⟩⟩)], [0], 1⟩
    ⟨1, "disk", some 0⟩ 1
  have t2 := t.2 0 ⟨1, ⟨"disk", [3, 4]⟩⟩ 1 rfl (by decide) (by decide)
  exact ⟨t.1 (Or.inl rfl), t2.1, t2.2⟩
